import Mathlib

/-!
Verification of the lexer/parser core of the rust-lisp repository
(`src/parser.rs`, `src/main.rs`) against its natural-language specification.

The Rust source is shallowly embedded: the character iterator
(`Peekable<Chars>`) becomes an explicit `List Char` that each function
threads through and returns; fallible functions return `Except Error`.
The modules `errors.rs`, `atom.rs` and `number.rs` are not part of the
sources under verification; the pieces of them that the parser touches
(the error enum, `Atom::parse`, and the atom `Display` impl) are modelled
from the specification and marked as such in their doc comments.
-/

namespace RustLisp

/-- Modelled from the spec: the error enum of `errors.rs` is not among the
sources; §7 lists the taxonomy (parse error, end-of-input, compile error,
runtime error).  The variants `Parser` and `EoF` are the ones named by
`parser.rs` and `main.rs` respectively. -/
inductive Error where
  | Parser
  | EoF
  | Compile
  | Runtime
deriving DecidableEq

/-- Modelled from the spec: `number.rs` is not among the sources.  Two-kind
numeric tower (§1, §3): a 64-bit signed integer or a float.  A float is
represented by its literal text, which is also how §6 prints it. -/
inductive Number where
  | Integer (i : Int)
  | Float (text : String)
deriving DecidableEq

/-- Abbreviation for the built-in string type, usable where the constructor
name `Atom.String` would otherwise shadow it. -/
abbrev Str := String

/-- Modelled from the spec: `atom.rs` is not among the sources.  The atom
variants the lexer and parser touch (§3 value model): symbol, string,
number, boolean.  (Runtime-only variants — list, closure, native — never
appear in lexer/parser output and are omitted.) -/
inductive Atom where
  | Symbol (s : Str)
  | String (s : Str)
  | Number (n : Number)
  | Boolean (b : Bool)
deriving DecidableEq

/-- The character `\` (escape lead-in inside string literals). -/
def bslash : Char := Char.ofNat 92

/-- The character `"` (string literal delimiter). -/
def dquote : Char := Char.ofNat 34

/-- The quote character (single quote). -/
def squote : Char := Char.ofNat 39

/-- The backtick character (quasiquote marker in the grammar of §6). -/
def backtick : Char := Char.ofNat 96

/-- A nonempty run of decimal digits. -/
def isDigits (l : List Char) : Bool :=
  !l.isEmpty && l.all Char.isDigit

/-- Numeric value of a run of decimal digits. -/
def digitsToNat (l : List Char) : Nat :=
  l.foldl (fun a c => 10 * a + (c.toNat - 48)) 0

/-- Modelled from the spec (§4.2, case 1): text that parses as a signed
64-bit integer — an optional leading `-` followed by digits only, whose
value fits in `i64`. -/
def parseI64 (s : String) : Option Int :=
  match s.data with
  | '-' :: rest =>
    if isDigits rest && digitsToNat rest ≤ 2 ^ 63 then
      some (-(digitsToNat rest : Int))
    else none
  | l =>
    if isDigits l && digitsToNat l ≤ 2 ^ 63 - 1 then
      some ((digitsToNat l : Int))
    else none

/-- Digits, a decimal point, digits — with at least one digit present. -/
def floatBody (l : List Char) : Bool :=
  let pre := l.takeWhile Char.isDigit
  match l.drop pre.length with
  | '.' :: post => post.all Char.isDigit && (!pre.isEmpty || !post.isEmpty)
  | _ => false

/-- Modelled from the spec (§4.2, case 2): text that parses as a
floating-point literal containing a decimal point, with an optional
leading `-`.  (§4.2 gives only the decimal-point criterion; exponent
forms are not mentioned by the spec and are not modelled.) -/
def isFloatText (s : String) : Bool :=
  match s.data with
  | '-' :: rest => floatBody rest
  | l => floatBody l

/-- Modelled from the spec: `Atom::parse` lives in `atom.rs`, which is not
among the sources.  §4.2 classification, in priority order: (1) signed
64-bit integer → `Integer`; (2) float literal containing a decimal
point → `Float`; (3) otherwise → `Symbol` holding the text verbatim. -/
def Atom.parse (s : Str) : Atom :=
  match parseI64 s with
  | some i => .Number (.Integer i)
  | none => if isFloatText s then .Number (.Float s) else .Symbol s

/-- The token enum of `parser.rs` (lines 77–86).  The source declares
`SyntaxQuote`, `Unquote` and `Splice` variants (commented there as the
backtick, tilde and tilde-at markers), but no code constructs them. -/
inductive Token where
  | Atom (a : Atom)
  | Open
  | Close
  | Quote
  | SyntaxQuote
  | Unquote
  | Splice
deriving DecidableEq

mutual

/-- `Node` of `parser.rs` (lines 12–16): an atom or a list of syntax nodes. -/
inductive Node where
  | Atom (a : Atom)
  | List (l : List SyntaxNode)

/-- `SyntaxNode` of `parser.rs` (lines 18–24): a plain node or a node under
one quoting wrapper.  The wrappers take a `Node`, not a `SyntaxNode`, so a
wrapper can never directly nest inside another wrapper. -/
inductive SyntaxNode where
  | Node (n : Node)
  | Quote (n : Node)
  | QuasiQuote (n : Node)
  | Splice (n : Node)

end

/-- `read_string` of `parser.rs` (lines 123–143): consume a string literal
body after its opening quote.  A backslash copies the following character
verbatim into the content; an unescaped `"` closes the literal; end of
input (with or without a pending escape) is `Error::Parser`. -/
def read_string (s : String) (cs : List Char) :
    Except Error (Option Token × List Char) :=
  match cs with
  | [] => .error .Parser
  | c :: rest =>
    if c = bslash then
      match rest with
      | [] => .error .Parser
      | e :: rest2 => read_string (s.push e) rest2
    else if c = dquote then
      .ok (some (Token.Atom (Atom.String s)), rest)
    else
      read_string (s.push c) rest


/-- Modelled from the spec (§4.1): a string-literal body whose input ends
before an unescaped closing double quote — including an escape pending at
end of input. -/
def ends_before_close : List Char → Bool
  | [] => true
  | c :: rest =>
    if c = bslash then
      match rest with
      | [] => true
      | _ :: rest2 => ends_before_close rest2
    else if c = dquote then false
    else ends_before_close rest

/-- Rust's `char::is_whitespace`, which `parser.rs` uses at lines 157 and
185: the Unicode White_Space property — code points 0009–000D, 0020,
0085, 00A0, 1680, 2000–200A, 2028, 2029, 202F, 205F and 3000.  (Lean's
`Char.isWhitespace` covers only space, tab, CR and LF and would be
unfaithful to the source.) -/
def isRustWhitespace (c : Char) : Bool :=
  let n := c.toNat
  decide (0x09 ≤ n ∧ n ≤ 0x0D) || n == 0x20 || n == 0x85 || n == 0xA0 ||
  n == 0x1680 || decide (0x2000 ≤ n ∧ n ≤ 0x200A) || n == 0x2028 ||
  n == 0x2029 || n == 0x202F || n == 0x205F || n == 0x3000

/-- The loop of `read_atom` of `parser.rs` (lines 145–166): accumulate
characters into the atom's text; a peeked `)` stops without being
consumed, a (Unicode) whitespace character stops and is consumed, end of
input stops. -/
def read_atom_go (s : String) (cs : List Char) : String × List Char :=
  match cs with
  | [] => (s, [])
  | c :: rest =>
    if c = ')' then (s, c :: rest)
    else if isRustWhitespace c then (s, rest)
    else read_atom_go (s.push c) rest

/-- `read_atom` of `parser.rs` (lines 145–166): the accumulated text is
classified by `Atom::parse`. -/
def read_atom (c : Char) (cs : List Char) :
    Except Error (Option Token × List Char) :=
  let r := read_atom_go (String.singleton c) cs
  .ok (some (Token.Atom (Atom.parse r.1)), r.2)

/-- The body of `next` of `parser.rs` (lines 168–192).  The flag is true
while the `;`-comment loop (lines 177–183) is consuming characters up to
a newline.  Note the source has no arm for the backtick or tilde
characters: they fall into `read_atom` like any other character. -/
def nextGo : Bool → List Char → Except Error (Option Token × List Char)
  | _, [] => .ok (none, [])
  | true, c :: rest =>
    if c = '\n' then nextGo false rest else nextGo true rest
  | false, c :: rest =>
    if c = '(' then .ok (some .Open, rest)
    else if c = dquote then read_string "" rest
    else if c = ')' then .ok (some .Close, rest)
    else if c = squote then .ok (some .Quote, rest)
    else if c = ';' then nextGo true rest
    else if isRustWhitespace c then nextGo false rest
    else read_atom c rest

/-- `next` of `parser.rs` (lines 168–192): skip whitespace and comments and
produce the next token, `none` at end of input. -/
def next (cs : List Char) : Except Error (Option Token × List Char) :=
  nextGo false cs

mutual

/-- `read_tokens` of `parser.rs` (lines 194–230), with an explicit fuel
parameter standing for the recursion Rust performs on the shrinking
character iterator; `none` means the fuel ran out (shown below never to
happen for the fuel `read_tokens` supplies).  The arms mirror the source
match: `Open` enters the list loop, `Close` is `Error::Parser`, `Quote`
wraps a following plain `Node` child and makes any other child shape fall
through to `Error::Parser`, an atom token is a plain node, and everything
else — end of input, a lexer error, or the never-produced
`SyntaxQuote`/`Unquote`/`Splice` tokens — falls through to
`Error::Parser`. -/
def read_tokensF : Nat → List Char →
    Option (Except Error (SyntaxNode × List Char))
  | 0, _ => none
  | f + 1, cs =>
    match next cs with
    | .ok (some .Open, rest) => read_listF f rest []
    | .ok (some .Close, _) => some (.error .Parser)
    | .ok (some .Quote, rest) =>
      match read_tokensF f rest with
      | none => none
      | some (.error e) => some (.error e)
      | some (.ok (.Node n, rest2)) => some (.ok (.Quote n, rest2))
      | some (.ok (_, _)) => some (.error .Parser)
    | .ok (some (.Atom a), rest) => some (.ok (.Node (.Atom a), rest))
    | .ok (some .SyntaxQuote, _) => some (.error .Parser)
    | .ok (some .Unquote, _) => some (.error .Parser)
    | .ok (some .Splice, _) => some (.error .Parser)
    | .ok (none, _) => some (.error .Parser)
    | .error _ => some (.error .Parser)

/-- The list loop of `read_tokens` (lines 199–213): peek at the stream; a
`)` is consumed and closes the list, end of input is `Error::Parser`, and
any other character makes the loop parse one child from the unadvanced
stream and append it. -/
def read_listF : Nat → List Char → List SyntaxNode →
    Option (Except Error (SyntaxNode × List Char))
  | 0, _, _ => none
  | f + 1, cs, acc =>
    match cs with
    | [] => some (.error .Parser)
    | c :: rest =>
      if c = ')' then some (.ok (.Node (.List acc), rest))
      else
        match read_tokensF f cs with
        | none => none
        | some (.error e) => some (.error e)
        | some (.ok (sn, rest2)) => read_listF f rest2 (acc ++ [sn])

end

/-- Fuel with which `read_tokens` runs `read_tokensF`: shown sufficient by
`read_tokensF_adequate` below, because every recursive call of the source
advances the character iterator. -/
def fuelFor (cs : List Char) : Nat := 2 * cs.length + 1

/-- `read_tokens` of `parser.rs` (lines 194–230): parse one form, returning
it with the unconsumed remainder of the input. -/
def read_tokens (cs : List Char) : Except Error (SyntaxNode × List Char) :=
  (read_tokensF (fuelFor cs) cs).getD (.error .Parser)

/-- `tokenize` of `parser.rs` (lines 7–10): run `read_tokens` on the
characters of the line; the iterator (and with it any unconsumed trailing
input) is dropped. -/
def tokenize (line : String) : Except Error SyntaxNode :=
  match read_tokens line.data with
  | .ok (n, _) => .ok n
  | .error e => .error e

/-- Modelled from the spec (§6 printed form): the `Display` impl of
`atom.rs` is not among the sources.  An integer, float, symbol or boolean
prints as its literal text; a string prints as its raw content without
surrounding quotes. -/
def displayAtom : Atom → String
  | .Symbol s => s
  | .String s => s
  | .Number (.Integer i) => toString i
  | .Number (.Float t) => t
  | .Boolean b => if b then "true" else "false"

mutual

/-- The `fmt::Display` impl for `SyntaxNode` (`parser.rs` lines 30–51):
a plain node prints as its node; `Quote` prints a leading quote character,
`QuasiQuote` a leading backtick, `Splice` a leading `~@`. -/
def displaySyntax : SyntaxNode → String
  | .Node n => displayNode n
  | .Quote n => String.singleton squote ++ displayNode n
  | .QuasiQuote n => String.singleton backtick ++ displayNode n
  | .Splice n => "~@" ++ displayNode n

/-- The `fmt::Display` impl for `Node` (`parser.rs` lines 53–73): an atom
prints as the atom; a list prints `(`, the first element if any, each
later element preceded by one space, then `)`. -/
def displayNode : Node → String
  | .Atom a => displayAtom a
  | .List [] => "(" ++ ")"
  | .List (first :: rest) =>
    "(" ++ displaySyntax first ++ displayRest rest ++ ")"

/-- The `for n in list.iter().skip(1)` loop of the list `Display` arm
(`parser.rs` lines 65–67): writes `" {n}"` for each later element. -/
def displayRest : List SyntaxNode → String
  | [] => ""
  | n :: ns => " " ++ displaySyntax n ++ displayRest ns

end

mutual

/-- Modelled from the spec (§6 printed form), for comparison with the
code's `Display`: the canonical form of a syntax node — the node itself,
with a leading quote character, backtick, or `~@` under a wrapper. -/
def canonicalSyntax : SyntaxNode → String
  | .Node n => canonicalNode n
  | .Quote n => String.singleton squote ++ canonicalNode n
  | .QuasiQuote n => String.singleton backtick ++ canonicalNode n
  | .Splice n => "~@" ++ canonicalNode n

/-- Modelled from the spec (§6 printed form), for comparison with the
code's `Display`: a list prints as its elements space-separated and
parenthesized. -/
def canonicalNode : Node → String
  | .Atom a => displayAtom a
  | .List l => "(" ++ canonicalItems l ++ ")"

/-- Modelled from the spec (§6): space-separated elements — one space
between consecutive elements, nothing else. -/
def canonicalItems : List SyntaxNode → String
  | [] => ""
  | [x] => canonicalSyntax x
  | x :: y :: t => canonicalSyntax x ++ " " ++ canonicalItems (y :: t)

end


/-- The prompt choice of `repl` (`main.rs` lines 44–48): the primary
marker `>` when the pending buffer is empty, nothing otherwise. -/
def prompt (buffer : String) : String :=
  if buffer.isEmpty then ">" else ""

/-- The observable outcome of one iteration of the `repl` loop: quit, the
stack printed, a result printed, nothing printed (end-of-input), or an
error reported — each carrying the pending buffer it leaves behind. -/
inductive ReplStep where
  | Quit
  | Stack (buffer : String)
  | Printed (out : String) (buffer : String)
  | Silent (buffer : String)
  | Reported (e : Error) (buffer : String)
deriving DecidableEq

/-- One iteration of the `repl` loop of `main.rs` (lines 49–73) on one
input line.  `vm.eval_string` — the tokenize+parse+compile+execute
pipeline; the compiler and VM are outside the sources under
verification — is abstracted as the parameter `eval`, whose `Ok` result
stands for the printed form of the produced value.  The line `quit`
returns; the line `,print-stack` prints the stack and touches nothing;
any other line is appended to the buffer and evaluated: success prints
and clears, `Error::EoF` keeps the extended buffer silently, any other
error reports and clears. -/
def repl_step (eval : String → Except Error String)
    (buffer line : String) : ReplStep :=
  if line = "quit" then .Quit
  else if line = ",print-stack" then .Stack buffer
  else
    let buf := buffer ++ line
    match eval buf with
    | .ok r => .Printed r ""
    | .error .EoF => .Silent buf
    | .error e => .Reported e ""

/-- Lean's whitespace test implies Rust's: space, tab, CR and LF all carry
the Unicode White_Space property. -/
theorem rust_ws_of_ws (c : Char) (h : c.isWhitespace = true) :
    isRustWhitespace c = true := by
  simp [Char.isWhitespace] at h
  rcases h with ((h | h) | h) | h <;> subst h <;> decide

/-- Contrapositive: a character that is not Rust whitespace is not Lean
whitespace either. -/
theorem ws_false_of_rust_ws_false (c : Char)
    (h : isRustWhitespace c = false) : c.isWhitespace = false := by
  cases hw : c.isWhitespace
  · rfl
  · have := rust_ws_of_ws c hw
    rw [this] at h
    exact Bool.noConfusion h

/-- A successful `read_string` consumes at least one character (the closing
quote). -/
theorem read_string_consumes (cs : List Char) (s : String) (t : Option Token)
    (rest : List Char) (h : read_string s cs = .ok (t, rest)) :
    rest.length < cs.length := by
  induction s, cs using read_string.induct with
  | case1 s => simp [read_string.eq_def] at h
  | case2 s => simp [read_string.eq_def] at h
  | case3 s e rest2 ih =>
    simp [read_string] at h
    have := ih h
    simp only [List.length_cons]
    omega
  | case4 s rest2 hne =>
    unfold read_string at h
    simp [hne] at h
    obtain ⟨-, h2⟩ := h
    simp only [← h2, List.length_cons]
    omega
  | case5 s c rest2 hne1 hne2 ih =>
    unfold read_string at h
    simp [hne1, hne2] at h
    have := ih h
    simp only [List.length_cons]
    omega

/-- The atom loop never moves the stream backwards. -/
theorem read_atom_go_le (cs : List Char) (s : String) :
    (read_atom_go s cs).2.length ≤ cs.length := by
  induction s, cs using read_atom_go.induct with
  | case1 s => simp [read_atom_go]
  | case2 s rest2 => simp [read_atom_go]
  | case3 s e rest2 h1 h2 => simp [read_atom_go, h1, h2]
  | case4 s e rest2 h1 h2 ih =>
    simp only [read_atom_go, if_neg h1, if_neg h2]
    simp only [List.length_cons]
    omega

/-- Producing a token consumes at least one character. -/
theorem nextGo_consumes (cs : List Char) (b : Bool) (t : Token)
    (rest : List Char) (h : nextGo b cs = .ok (some t, rest)) :
    rest.length < cs.length := by
  induction b, cs using nextGo.induct with
  | case1 b => simp [nextGo] at h
  | case2 rest2 ih =>
    simp [nextGo] at h
    have := ih h
    simp only [List.length_cons]; omega
  | case3 c rest2 hne ih =>
    simp [nextGo, hne] at h
    have := ih h
    simp only [List.length_cons]; omega
  | case4 rest2 =>
    simp [nextGo] at h
    simp only [← h.2, List.length_cons]; omega
  | case5 rest2 hne =>
    simp [nextGo, hne] at h
    have := read_string_consumes rest2 "" t rest h
    simp only [List.length_cons]; omega
  | case6 rest2 hne1 hne2 =>
    simp [nextGo, hne1, hne2] at h
    simp only [← h.2, List.length_cons]; omega
  | case7 rest2 hne1 hne2 hne3 =>
    simp [nextGo, hne1, hne2, hne3] at h
    simp only [← h.2, List.length_cons]; omega
  | case8 rest2 hne1 hne2 hne3 hne4 ih =>
    simp [nextGo, hne1, hne2, hne3, hne4] at h
    have := ih h
    simp only [List.length_cons]; omega
  | case9 c rest2 hne1 hne2 hne3 hne4 hne5 hws ih =>
    simp [nextGo, hne1, hne2, hne3, hne4, hne5, hws] at h
    have := ih h
    simp only [List.length_cons]; omega
  | case10 c rest2 hne1 hne2 hne3 hne4 hne5 hws =>
    simp [nextGo, hne1, hne2, hne3, hne4, hne5, hws, read_atom] at h
    have := read_atom_go_le rest2 (String.singleton c)
    simp only [← h.2, List.length_cons]
    omega

/-- Producing a token consumes at least one character (`next` form). -/
theorem next_consumes (cs : List Char) (t : Token) (rest : List Char)
    (h : next cs = .ok (some t, rest)) : rest.length < cs.length :=
  nextGo_consumes cs false t rest h

/-- A successful parse consumes at least one character (joint statement for
the parser and its list loop, by induction on fuel). -/
theorem read_tokensF_consumes (f : Nat) :
    (∀ cs sn rest, read_tokensF f cs = some (.ok (sn, rest)) →
        rest.length < cs.length) ∧
    (∀ cs acc sn rest, read_listF f cs acc = some (.ok (sn, rest)) →
        rest.length < cs.length) := by
  induction f with
  | zero =>
    constructor
    · intro cs sn rest h; simp [read_tokensF] at h
    · intro cs acc sn rest h; simp [read_listF] at h
  | succ f ih =>
    constructor
    · intro cs sn rest h
      rw [read_tokensF] at h
      split at h
      · rename_i rest0 heq
        have h1 := ih.2 rest0 [] sn rest h
        have h2 := next_consumes cs .Open rest0 heq
        omega
      · simp at h
      · rename_i rest0 heq
        split at h
        · simp at h
        · simp at h
        · rename_i n rest2 heq2
          simp at h
          obtain ⟨-, h2⟩ := h
          subst h2
          have h1 := ih.1 rest0 (.Node n) rest2 heq2
          have h3 := next_consumes cs .Quote rest0 heq
          omega
        · simp at h
      · rename_i a rest0 heq
        simp at h
        obtain ⟨-, h2⟩ := h
        subst h2
        have h3 := next_consumes cs (.Atom a) rest0 heq
        omega
      · simp at h
      · simp at h
      · simp at h
      · simp at h
      · simp at h
    · intro cs acc sn rest h
      cases cs with
      | nil => simp [read_listF] at h
      | cons c rest0 =>
        rw [read_listF] at h
        split at h
        · rename_i hc
          simp at h
          obtain ⟨-, h2⟩ := h
          subst h2
          simp
        · rename_i hc
          split at h
          · simp at h
          · simp at h
          · rename_i sn2 rest2 heq2
            have h1 := ih.1 (c :: rest0) sn2 rest2 heq2
            have h2 := ih.2 rest2 (acc ++ [sn2]) sn rest h
            omega

/-- Fuel monotonicity: a defined result (success or error) is stable under
giving the parser more fuel. -/
theorem read_tokensF_mono (f : Nat) :
    (∀ f' cs r, f ≤ f' → read_tokensF f cs = some r →
        read_tokensF f' cs = some r) ∧
    (∀ f' cs acc r, f ≤ f' → read_listF f cs acc = some r →
        read_listF f' cs acc = some r) := by
  induction f with
  | zero =>
    constructor
    · intro f' cs r _ h; simp [read_tokensF] at h
    · intro f' cs acc r _ h; simp [read_listF] at h
  | succ f ih =>
    constructor
    · intro f' cs r hle h
      obtain ⟨f'', rfl⟩ : ∃ f'', f' = f'' + 1 := ⟨f' - 1, by omega⟩
      have hf : f ≤ f'' := by omega
      rw [read_tokensF] at h
      rw [read_tokensF]
      split at h
      · rename_i rest0 heq
        exact ih.2 f'' rest0 [] r hf h
      · rename_i rest0 heq
        exact h
      · rename_i rest0 heq
        cases hm : read_tokensF f rest0 with
        | none => simp only [hm] at h; simp at h
        | some v =>
          have hm' := ih.1 f'' rest0 v hf hm
          cases v with
          | error e =>
            simp only [hm] at h
            simp only [hm']
            exact h
          | ok p =>
            obtain ⟨sn2, rest2⟩ := p
            cases sn2 <;>
              (simp only [hm] at h; simp only [hm']; exact h)
      · rename_i a rest0 heq
        exact h
      · rename_i rest0 heq
        exact h
      · rename_i rest0 heq
        exact h
      · rename_i rest0 heq
        exact h
      · rename_i rest0 heq
        exact h
      · rename_i e heq
        exact h
    · intro f' cs acc r hle h
      obtain ⟨f'', rfl⟩ : ∃ f'', f' = f'' + 1 := ⟨f' - 1, by omega⟩
      have hf : f ≤ f'' := by omega
      cases cs with
      | nil =>
        rw [read_listF] at h
        rw [read_listF]
        exact h
      | cons c rest0 =>
        rw [read_listF] at h
        rw [read_listF]
        by_cases hc : c = ')'
        · simp only [if_pos hc] at h ⊢
          exact h
        · simp only [if_neg hc] at h ⊢
          cases hm : read_tokensF f (c :: rest0) with
          | none => simp only [hm] at h; simp at h
          | some v =>
            have hm' := ih.1 f'' (c :: rest0) v hf hm
            cases v with
            | error e =>
              simp only [hm] at h
              simp only [hm']
              exact h
            | ok p =>
              obtain ⟨sn2, rest2⟩ := p
              simp only [hm] at h
              simp only [hm']
              exact ih.2 f'' rest2 (acc ++ [sn2]) r hf h

/-- Fuel adequacy: fuel exceeding twice the input length never runs out,
because every recursive call of the source advances the iterator.  This is
the termination argument for the Rust recursion, and it shows the fuel
`read_tokens` supplies is enough. -/
theorem read_tokensF_adequate (f : Nat) :
    (∀ cs, 2 * cs.length + 1 ≤ f → read_tokensF f cs ≠ none) ∧
    (∀ cs acc, 2 * cs.length + 2 ≤ f → read_listF f cs acc ≠ none) := by
  induction f with
  | zero =>
    constructor
    · intro cs hlen; exact absurd hlen (by omega)
    · intro cs acc hlen; exact absurd hlen (by omega)
  | succ f ih =>
    constructor
    · intro cs hlen h
      rw [read_tokensF] at h
      split at h
      · rename_i rest0 heq
        have := next_consumes cs .Open rest0 heq
        exact ih.2 rest0 [] (by omega) h
      · simp at h
      · rename_i rest0 heq
        have hc := next_consumes cs .Quote rest0 heq
        split at h
        · rename_i heq2
          exact ih.1 rest0 (by omega) heq2
        · simp at h
        · simp at h
        · simp at h
      · simp at h
      · simp at h
      · simp at h
      · simp at h
      · simp at h
      · simp at h
    · intro cs acc hlen h
      cases cs with
      | nil => simp [read_listF] at h
      | cons c rest0 =>
        rw [read_listF] at h
        by_cases hc : c = ')'
        · rw [if_pos hc] at h; simp at h
        · rw [if_neg hc] at h
          split at h
          · rename_i heq2
            exact ih.1 (c :: rest0) (by omega) heq2
          · simp at h
          · rename_i sn2 rest2 heq2
            have hcons := (read_tokensF_consumes f).1 (c :: rest0) sn2 rest2 heq2
            simp only [List.length_cons] at hlen hcons
            exact ih.2 rest2 (acc ++ [sn2]) (by omega) h

/-- The fuel `read_tokens` supplies is sufficient: `read_tokensF` at that
fuel is defined and computes exactly `read_tokens`. -/
theorem read_tokensF_fuelFor (cs : List Char) :
    read_tokensF (fuelFor cs) cs = some (read_tokens cs) := by
  cases h : read_tokensF (fuelFor cs) cs with
  | none =>
    exact absurd h ((read_tokensF_adequate (fuelFor cs)).1 cs (by simp [fuelFor]))
  | some r => simp [read_tokens, h]

/-- The code's `Display` output equals the spec's canonical form, for every
syntax node, node, and nonempty element list (joint statement, by strong
induction on size). -/
theorem display_eq_canonical (k : Nat) :
    (∀ sn : SyntaxNode, sizeOf sn ≤ k → displaySyntax sn = canonicalSyntax sn) ∧
    (∀ n : Node, sizeOf n ≤ k → displayNode n = canonicalNode n) ∧
    (∀ (x : SyntaxNode) (l : List SyntaxNode), sizeOf x + sizeOf l ≤ k →
      displaySyntax x ++ displayRest l = canonicalItems (x :: l)) := by
  induction k with
  | zero =>
    refine ⟨?_, ?_, ?_⟩
    · intro sn h; exfalso; cases sn <;> simp at h
    · intro n h; exfalso; cases n <;> simp at h
    · intro x l h; exfalso; cases x <;> simp at h
  | succ k ih =>
    refine ⟨?_, ?_, ?_⟩
    · intro sn h
      cases sn with
      | Node n =>
        simp only [displaySyntax, canonicalSyntax]
        simp at h
        exact ih.2.1 n (by omega)
      | Quote n =>
        simp only [displaySyntax, canonicalSyntax]
        simp at h
        rw [ih.2.1 n (by omega)]
      | QuasiQuote n =>
        simp only [displaySyntax, canonicalSyntax]
        simp at h
        rw [ih.2.1 n (by omega)]
      | Splice n =>
        simp only [displaySyntax, canonicalSyntax]
        simp at h
        rw [ih.2.1 n (by omega)]
    · intro n h
      cases n with
      | Atom a => simp only [displayNode, canonicalNode]
      | List l =>
        cases l with
        | nil =>
          simp only [displayNode, canonicalNode, canonicalItems,
            String.append_empty]
        | cons x t =>
          simp only [displayNode, canonicalNode]
          simp at h
          rw [← ih.2.2 x t (by omega)]
          simp [String.append_assoc]
    · intro x l h
      cases l with
      | nil =>
        simp only [displayRest, canonicalItems, String.append_empty]
        simp at h
        exact ih.1 x (by omega)
      | cons y t =>
        simp only [displayRest, canonicalItems]
        simp at h
        have hx : 1 ≤ sizeOf x := by cases x <;> simp
        rw [ih.1 x (by omega), ← ih.2.2 y t (by omega)]
        simp [String.append_assoc]

/-- Every character of the text accumulated by the atom loop is either
already in the accumulator or is neither `)` nor Rust whitespace. -/
theorem read_atom_go_chars (cs : List Char) (s : String) (ch : Char)
    (h : ch ∈ (read_atom_go s cs).1.data) :
    ch ∈ s.data ∨ (ch ≠ ')' ∧ isRustWhitespace ch = false) := by
  induction s, cs using read_atom_go.induct with
  | case1 s => simp [read_atom_go] at h; exact Or.inl h
  | case2 s rest2 => simp [read_atom_go] at h; exact Or.inl h
  | case3 s e rest2 h1 h2 =>
    simp [read_atom_go, h1, h2] at h; exact Or.inl h
  | case4 s e rest2 h1 h2 ih =>
    simp only [read_atom_go, if_neg h1, if_neg h2] at h
    rcases ih h with hin | hgood
    · rw [String.data_push] at hin
      rcases List.mem_append.mp hin with hin1 | hin2
      · exact Or.inl hin1
      · simp at hin2
        subst hin2
        exact Or.inr ⟨h1, by simpa using h2⟩
    · exact Or.inr hgood

/-- When no character of the input is `)` or Rust whitespace, the atom
loop consumes the whole input into the text. -/
theorem read_atom_go_all (cs : List Char) (s : String)
    (h : ∀ ch ∈ cs, ch ≠ ')' ∧ isRustWhitespace ch = false) :
    read_atom_go s cs = (String.mk (s.data ++ cs), []) := by
  induction cs generalizing s with
  | nil =>
    cases s
    simp [read_atom_go]
  | cons c rest ih =>
    have hc := h c (by simp)
    unfold read_atom_go
    rw [if_neg hc.1, if_neg (by simp [hc.2])]
    rw [ih (s.push c) (fun ch hch => h ch (by simp [hch]))]
    simp [String.data_push]

/-- C1: the claim says end of input inside an open list or right after a
quote marker yields the distinguished `Error::EoF`; the code's
`read_tokens` returns the generic `Error::Parser` on both inputs ( `(a`
and a lone quote ), although `main.rs` has a dedicated `Err(Error::EoF)`
arm for exactly that distinction. -/
theorem c1_incomplete_input_yields_generic_parser_error :
    read_tokens ['(', 'a'] = .error Error.Parser ∧
    read_tokens [squote] = .error Error.Parser ∧
    tokenize (String.mk ['(', 'a']) = .error Error.Parser ∧
    tokenize (String.mk [squote]) = .error Error.Parser ∧
    Error.Parser ≠ Error.EoF :=
  ⟨rfl, rfl, rfl, rfl, by decide⟩

/-- C2: the claim says a backtick or tilde is lexed as its own
quasiquote/unquote/splice token and the parser wraps the following form
in `QuasiQuote`/`Splice`; the code's `next` has no arm for those
characters, so they are absorbed into an atom and the result is a plain
symbol node whose text still contains the marker. -/
theorem c2_quasiquote_markers_are_absorbed_into_atoms :
    tokenize (String.mk [backtick, 'x']) =
      .ok (.Node (.Atom (.Symbol (String.mk [backtick, 'x'])))) ∧
    tokenize (String.mk ['~', 'x']) =
      .ok (.Node (.Atom (.Symbol (String.mk ['~', 'x'])))) ∧
    tokenize (String.mk ['~', '@', 'x']) =
      .ok (.Node (.Atom (.Symbol (String.mk ['~', '@', 'x'])))) ∧
    tokenize (String.mk [backtick, 'x']) ≠
      .ok (.QuasiQuote (.Atom (.Symbol (String.mk ['x'])))) :=
  ⟨rfl, rfl, rfl, fun h => SyntaxNode.noConfusion (Except.ok.inj h)⟩

/-- C4: inside a string literal, a backslash copies the immediately
following character verbatim into the content — the backslash is not
retained and no escape interpretation happens; in particular the two
example strings of the spec tokenize to contents `foo'bar` and
`foo"bar`. -/
theorem c4_string_escape_copies_next_char_verbatim :
    tokenize (String.mk
        [dquote, 'f', 'o', 'o', bslash, squote, 'b', 'a', 'r', dquote]) =
      .ok (.Node (.Atom (.String
        (String.mk ['f', 'o', 'o', squote, 'b', 'a', 'r'])))) ∧
    tokenize (String.mk
        [dquote, 'f', 'o', 'o', bslash, dquote, 'b', 'a', 'r', dquote]) =
      .ok (.Node (.Atom (.String
        (String.mk ['f', 'o', 'o', dquote, 'b', 'a', 'r'])))) ∧
    ∀ (s : String) (c : Char) (rest : List Char),
      read_string s (bslash :: c :: rest) = read_string (s.push c) rest :=
  ⟨rfl, rfl, fun _ _ _ => rfl⟩

/-- C5: an input that ends inside a string literal before an unescaped
closing quote — including an escape pending at end of input — makes
`read_string` (and with it `tokenize`) return the generic `Error::Parser`,
which is distinct from the `EoF` variant. -/
theorem c5_unterminated_string_is_generic_parse_error :
    (∀ (s : String) (cs : List Char), ends_before_close cs = true →
      read_string s cs = .error Error.Parser) ∧
    tokenize (String.mk [dquote, 'a', 'b', 'c']) = .error Error.Parser ∧
    tokenize (String.mk [dquote, 'a', bslash]) = .error Error.Parser ∧
    Error.Parser ≠ Error.EoF := by
  refine ⟨?_, rfl, rfl, by decide⟩
  intro s cs hc
  induction s, cs using read_string.induct with
  | case1 s => rfl
  | case2 s => rfl
  | case3 s e rest2 ih => exact ih hc
  | case4 s rest2 hne =>
    unfold ends_before_close at hc
    rw [if_neg hne] at hc
    simp at hc
  | case5 s c rest2 hne1 hne2 ih =>
    unfold read_string
    rw [if_neg hne1, if_neg hne2]
    unfold ends_before_close at hc
    rw [if_neg hne1, if_neg hne2] at hc
    exact ih hc

/-- Witness for C5 at two concrete inputs: the body `abc` with no closing
quote, and the body `a\` with the escape pending at end of input. -/
theorem c5_witness :
    ends_before_close ['a', 'b', 'c'] = true ∧
    read_string "" ['a', 'b', 'c'] = .error Error.Parser ∧
    ends_before_close ['a', bslash] = true ∧
    read_string "" ['a', bslash] = .error Error.Parser :=
  ⟨by decide,
   c5_unterminated_string_is_generic_parse_error.1 "" ['a', 'b', 'c']
     (by decide),
   by decide,
   c5_unterminated_string_is_generic_parse_error.1 "" ['a', bslash]
     (by decide)⟩

/-- C6 counterexample: the claim says no atom token's text ever contains
`(`, `)` or a quote character; but the atom loop only stops at `)`,
whitespace or end of input, so a quote or `(` after the first character
of an atom is absorbed: `a'b` and `a(b` each lex as one symbol containing
the marker. -/
theorem c6_counterexample_atom_text_contains_quote_and_open :
    tokenize (String.mk ['a', squote, 'b']) =
      .ok (.Node (.Atom (.Symbol (String.mk ['a', squote, 'b'])))) ∧
    tokenize (String.mk ['a', '(', 'b']) =
      .ok (.Node (.Atom (.Symbol (String.mk ['a', '(', 'b'])))) ∧
    squote ∈ (String.mk ['a', squote, 'b']).data ∧
    '(' ∈ (String.mk ['a', '(', 'b']).data :=
  ⟨rfl, rfl, by decide, by decide⟩

/-- C6 amended: `)` (and whitespace) terminates an in-progress atom run,
so an atom's text never contains `)` or whitespace; `(`, `)` and the
quote are single-character tokens only at a token boundary — a `(` or
quote after the start of an atom is absorbed into the atom's text. -/
theorem c6_amended_atom_text_free_of_close_and_whitespace :
    ∀ (c : Char) (cs : List Char), c ≠ ')' → c.isWhitespace = false →
      ∀ ch ∈ ((read_atom_go (String.singleton c) cs).1).data,
        ch ≠ ')' ∧ ch.isWhitespace = false := by
  intro c cs hc hw ch hch
  rcases read_atom_go_chars cs (String.singleton c) ch hch with hin | hgood
  · have : ch = c := by simpa using hin
    subst this
    exact ⟨hc, hw⟩
  · exact ⟨hgood.1, ws_false_of_rust_ws_false ch hgood.2⟩

/-- Witness for C6 amended: the atom starting at `a` with input `b)` —
every character of the resulting text `ab` is neither `)` nor
whitespace. -/
theorem c6_witness :
    ('a' ≠ ')' ∧ 'a'.isWhitespace = false) ∧
    ('b' ≠ ')' ∧ 'b'.isWhitespace = false) ∧
    read_atom_go (String.singleton 'a') ['b', ')'] =
      (String.mk ['a', 'b'], [')']) :=
  ⟨c6_amended_atom_text_free_of_close_and_whitespace 'a' ['b', ')']
     (by decide) (by decide) 'a' (by decide),
   c6_amended_atom_text_free_of_close_and_whitespace 'a' ['b', ')']
     (by decide) (by decide) 'b' (by decide),
   rfl⟩

/-- C10: `tokenize` parses one top-level form and silently discards any
trailing input; an input with no leading form at all — empty,
whitespace-only, or comment-only — is the generic `Error::Parser`, not
the end-of-input condition. -/
theorem c10_single_form_trailing_input_ignored :
    (∀ (cs : List Char) (sn : SyntaxNode) (rest : List Char),
        read_tokens cs = .ok (sn, rest) → tokenize (String.mk cs) = .ok sn) ∧
    (∀ (cs rest : List Char),
        next cs = .ok (none, rest) → read_tokens cs = .error Error.Parser) ∧
    tokenize (String.mk ['1', ' ', '2']) =
      .ok (.Node (.Atom (.Number (.Integer 1)))) ∧
    tokenize (String.mk ['(', 'a', ')', ' ', '(', 'b', ')']) =
      .ok (.Node (.List [.Node (.Atom (.Symbol (String.mk ['a'])))])) ∧
    tokenize "" = .error Error.Parser ∧
    tokenize (String.mk [' ', ' ']) = .error Error.Parser ∧
    tokenize (String.mk [';', 'c']) = .error Error.Parser := by
  refine ⟨?_, ?_, rfl, rfl, rfl, rfl, rfl⟩
  · intro cs sn rest h
    simp [tokenize, h]
  · intro cs rest h
    unfold read_tokens fuelFor
    rw [read_tokensF]
    simp only [h]
    rfl

/-- Witness for C10: on the input `1 2`, `read_tokens` stops after the
`1`, leaving `2` unread, and `tokenize` discards it; the comment-only
input `;c` reaches end of input with no token and errors. -/
theorem c10_witness :
    read_tokens ['1', ' ', '2'] =
      .ok (.Node (.Atom (.Number (.Integer 1))), ['2']) ∧
    tokenize (String.mk ['1', ' ', '2']) =
      .ok (.Node (.Atom (.Number (.Integer 1)))) ∧
    next [';', 'c'] = .ok (none, []) ∧
    read_tokens [';', 'c'] = .error Error.Parser :=
  ⟨rfl,
   c10_single_form_trailing_input_ignored.1 ['1', ' ', '2'] _ ['2'] rfl,
   rfl,
   c10_single_form_trailing_input_ignored.2.1 [';', 'c'] [] rfl⟩

/-- C3 counterexample: the claim says a quote followed by any successfully
parsed form — including another quoted form such as `''x` — yields a
`Quote` wrapper; the code's quote arm accepts only a plain `Node` child,
so `''x` is a parse error. -/
theorem c3_counterexample_double_quote_fails :
    tokenize (String.mk [squote, squote, 'x']) = .error Error.Parser ∧
    read_tokens [squote, 'x'] =
      .ok (.Quote (.Atom (.Symbol (String.mk ['x']))), []) :=
  ⟨rfl, rfl⟩

/-- C3 amended: a quote token followed by a form that parses as a plain
node yields that node wrapped in `Quote`; if the following form parses as
a wrapped node (itself quote-prefixed), the parser falls through to the
generic parse error instead. -/
theorem c3_amended_quote_wraps_plain_form :
    ∀ (cs : List Char) (sn : SyntaxNode) (rest : List Char),
      read_tokens cs = .ok (sn, rest) →
      ((∀ n : Node, sn = .Node n →
          read_tokens (squote :: cs) = .ok (.Quote n, rest)) ∧
       ((∀ n : Node, sn ≠ .Node n) →
          read_tokens (squote :: cs) = .error Error.Parser)) := by
  intro cs sn rest h
  have hF := read_tokensF_fuelFor cs
  rw [h] at hF
  have hF2 : read_tokensF (2 * cs.length + 2) cs = some (.ok (sn, rest)) :=
    (read_tokensF_mono (fuelFor cs)).1 (2 * cs.length + 2) cs _
      (by simp [fuelFor]) hF
  have hlen : fuelFor (squote :: cs) = (2 * cs.length + 2) + 1 := by
    simp [fuelFor, List.length_cons]
    omega
  have hn : next (squote :: cs) = .ok (some .Quote, cs) := rfl
  constructor
  · intro n hsn
    subst hsn
    unfold read_tokens
    rw [hlen, read_tokensF]
    simp only [hn, hF2]
    rfl
  · intro hne
    cases sn with
    | Node n => exact absurd rfl (hne n)
    | Quote n =>
      unfold read_tokens
      rw [hlen, read_tokensF]
      simp only [hn, hF2]
      rfl
    | QuasiQuote n =>
      unfold read_tokens
      rw [hlen, read_tokensF]
      simp only [hn, hF2]
      rfl
    | Splice n =>
      unfold read_tokens
      rw [hlen, read_tokensF]
      simp only [hn, hF2]
      rfl

/-- Witness for C3: quoting the plain form `x` succeeds and wraps it;
quoting the already-quoted form `'x` is the generic parse error. -/
theorem c3_witness :
    read_tokens (squote :: ['x']) =
      .ok (.Quote (.Atom (.Symbol (String.mk ['x']))), []) ∧
    read_tokens (squote :: squote :: ['x']) = .error Error.Parser :=
  ⟨(c3_amended_quote_wraps_plain_form ['x']
      (.Node (.Atom (.Symbol (String.mk ['x'])))) [] rfl).1
      (.Atom (.Symbol (String.mk ['x']))) rfl,
   (c3_amended_quote_wraps_plain_form (squote :: ['x'])
      (.Quote (.Atom (.Symbol (String.mk ['x'])))) [] rfl).2
      (fun _ h => SyntaxNode.noConfusion h)⟩

/-- Lexing a pure atom text: when the first character is none of the five
special characters and not whitespace, and no later character is `)` or
whitespace, `next` consumes the whole input into one atom token whose
text is the input verbatim, classified by `Atom.parse`. -/
theorem next_full_atom (c : Char) (cs : List Char)
    (h1 : c ≠ '(') (h2 : c ≠ dquote) (h3 : c ≠ ')') (h4 : c ≠ squote)
    (h5 : c ≠ ';') (hw : isRustWhitespace c = false)
    (hcs : ∀ ch ∈ cs, ch ≠ ')' ∧ isRustWhitespace ch = false) :
    next (c :: cs) =
      .ok (some (Token.Atom (Atom.parse (String.mk (c :: cs)))), []) := by
  unfold next nextGo
  rw [if_neg h1, if_neg h2, if_neg h3, if_neg h4, if_neg h5,
    if_neg (by simp [hw])]
  unfold read_atom
  rw [read_atom_go_all cs (String.singleton c) hcs]
  rfl

/-- C8: an atom text — one whose characters keep the lexer inside the
atom rule, whitespace taken in Rust's Unicode sense — reaches the
classifier verbatim through the lexer and is classified by the spec's
priority order: a signed 64-bit integer text yields `Integer` with that
value, a non-integer text that is a float literal with a decimal point
yields `Float`, and every other text yields a `Symbol` holding the text
verbatim. -/
theorem c8_atom_classification_priority :
    ∀ (c : Char) (cs : List Char),
      c ∉ ['(', dquote, ')', squote, ';'] → isRustWhitespace c = false →
      (∀ ch ∈ cs, ch ≠ ')' ∧ isRustWhitespace ch = false) →
      (tokenize (String.mk (c :: cs)) =
         .ok (.Node (.Atom (Atom.parse (String.mk (c :: cs))))) ∧
       (∀ n : Int, parseI64 (String.mk (c :: cs)) = some n →
         Atom.parse (String.mk (c :: cs)) = .Number (.Integer n)) ∧
       (parseI64 (String.mk (c :: cs)) = none →
         isFloatText (String.mk (c :: cs)) = true →
         Atom.parse (String.mk (c :: cs)) =
           .Number (.Float (String.mk (c :: cs)))) ∧
       (parseI64 (String.mk (c :: cs)) = none →
         isFloatText (String.mk (c :: cs)) = false →
         Atom.parse (String.mk (c :: cs)) = .Symbol (String.mk (c :: cs)))) := by
  intro c cs hnotin hw hcs
  simp only [List.mem_cons, List.mem_singleton, not_or] at hnotin
  obtain ⟨h1, h2, h3, h4, h5, -⟩ := hnotin
  have hnext := next_full_atom c cs h1 h2 h3 h4 h5 hw hcs
  refine ⟨?_, ?_, ?_, ?_⟩
  · unfold tokenize read_tokens fuelFor
    rw [read_tokensF]
    simp only [hnext]
    rfl
  · intro n hp
    unfold Atom.parse
    simp [hp]
  · intro hp hf
    unfold Atom.parse
    simp [hp, hf]
  · intro hp hf
    unfold Atom.parse
    simp [hp, hf]

/-- Witness for C8 at three concrete atom texts: `-12` (integer), `5.0`
(float), `foo` (symbol). -/
theorem c8_witness :
    tokenize (String.mk ['-', '1', '2']) =
      .ok (.Node (.Atom (.Number (.Integer (-12))))) ∧
    tokenize (String.mk ['5', '.', '0']) =
      .ok (.Node (.Atom (.Number (.Float (String.mk ['5', '.', '0']))))) ∧
    tokenize (String.mk ['f', 'o', 'o']) =
      .ok (.Node (.Atom (.Symbol (String.mk ['f', 'o', 'o'])))) := by
  have hi := c8_atom_classification_priority '-' ['1', '2']
    (by decide) (by decide) (by decide)
  have hf := c8_atom_classification_priority '5' ['.', '0']
    (by decide) (by decide) (by decide)
  have hs := c8_atom_classification_priority 'f' ['o', 'o']
    (by decide) (by decide) (by decide)
  refine ⟨?_, ?_, ?_⟩
  · rw [hi.1, hi.2.1 (-12) (by decide)]
  · rw [hf.1, hf.2.2.1 (by decide) (by decide)]
  · rw [hs.1, hs.2.2.2 (by decide) (by decide)]

/-- C7: printing any successfully parsed syntax node — in particular any
parsed list — reproduces the spec's canonical form: elements
space-separated and parenthesized, nested lists recursively, a quoted
node with a leading quote character; since the printed form depends only
on the parsed tree, it is independent of the whitespace of the original
source. -/
theorem c7_roundtrip_canonical_print :
    (∀ (cs : List Char) (sn : SyntaxNode) (rest : List Char),
        read_tokens cs = .ok (sn, rest) →
        displaySyntax sn = canonicalSyntax sn) ∧
    (∀ n : Node, displaySyntax (.Quote n) =
        String.singleton squote ++ canonicalNode n) := by
  constructor
  · intro cs sn rest _
    exact (display_eq_canonical (sizeOf sn)).1 sn (le_refl _)
  · intro n
    show String.singleton squote ++ displayNode n = _
    rw [(display_eq_canonical (sizeOf n)).2.1 n (le_refl _)]

/-- Witness for C7: the whitespace-heavy source `(  a  b)` parses to the
same list as `(a b)` and its printed form is the canonical `(a b)`. -/
theorem c7_witness :
    read_tokens ['(', ' ', ' ', 'a', ' ', ' ', 'b', ')'] =
      .ok (.Node (.List [.Node (.Atom (.Symbol (String.mk ['a']))),
        .Node (.Atom (.Symbol (String.mk ['b'])))]), []) ∧
    read_tokens ['(', 'a', ' ', 'b', ')'] =
      .ok (.Node (.List [.Node (.Atom (.Symbol (String.mk ['a']))),
        .Node (.Atom (.Symbol (String.mk ['b'])))]), []) ∧
    displaySyntax (.Node (.List [.Node (.Atom (.Symbol (String.mk ['a']))),
        .Node (.Atom (.Symbol (String.mk ['b'])))])) =
      canonicalSyntax (.Node (.List [.Node (.Atom (.Symbol (String.mk ['a']))),
        .Node (.Atom (.Symbol (String.mk ['b'])))])) ∧
    displaySyntax (.Node (.List [.Node (.Atom (.Symbol (String.mk ['a']))),
        .Node (.Atom (.Symbol (String.mk ['b'])))])) = "(a b)" := by
  refine ⟨rfl, rfl, ?_, ?_⟩
  · exact c7_roundtrip_canonical_print.1
      ['(', ' ', ' ', 'a', ' ', ' ', 'b', ')'] _ [] rfl
  · simp only [displaySyntax, displayNode, displayRest, displayAtom]
    rfl

/-- C9 counterexample: the claim says every input line other than `quit`
is appended to the buffer and evaluated; the line `,print-stack` is
neither — it prints the VM stack, leaves the buffer untouched, and never
calls the evaluator, so no result is printed even when evaluation would
succeed. -/
theorem c9_counterexample_print_stack_line :
    repl_step (fun _ => .ok (String.mk ['0'])) "" ",print-stack" =
      .Stack "" ∧
    ReplStep.Stack "" ≠
      ReplStep.Printed (String.mk ['0']) "" :=
  ⟨rfl, by decide⟩

/-- C9 amended: the line `quit` ends the session; the line `,print-stack`
prints the stack and leaves the buffer untouched without evaluating;
every other line is appended to the buffer and evaluated — success
prints the result and clears the buffer (the next prompt is the primary
marker), an end-of-input result keeps the extended buffer and the next
prompt is empty, and any other error is reported with the buffer
cleared. -/
theorem c9_amended_repl_line_handling :
    ∀ (eval : String → Except Error String) (buffer line : String),
      repl_step eval buffer "quit" = .Quit ∧
      repl_step eval buffer ",print-stack" = .Stack buffer ∧
      (line ≠ "quit" → line ≠ ",print-stack" →
        ((∀ r, eval (buffer ++ line) = .ok r →
            repl_step eval buffer line = .Printed r "" ∧ prompt "" = ">") ∧
         (eval (buffer ++ line) = .error Error.EoF →
            repl_step eval buffer line = .Silent (buffer ++ line) ∧
            ((buffer ++ line).isEmpty = false →
              prompt (buffer ++ line) = "")) ∧
         (∀ e, e ≠ Error.EoF → eval (buffer ++ line) = .error e →
            repl_step eval buffer line = .Reported e ""))) := by
  intro eval buffer line
  refine ⟨rfl, rfl, ?_⟩
  intro hq hp
  refine ⟨?_, ?_, ?_⟩
  · intro r hr
    unfold repl_step
    rw [if_neg hq, if_neg hp]
    simp only [hr]
    exact ⟨trivial, rfl⟩
  · intro he
    unfold repl_step
    rw [if_neg hq, if_neg hp]
    simp only [he]
    refine ⟨trivial, ?_⟩
    intro hne
    unfold prompt
    rw [if_neg (by simp [hne])]
  · intro e hee hre
    cases e with
    | EoF => exact absurd rfl hee
    | Parser =>
      unfold repl_step
      rw [if_neg hq, if_neg hp]
      simp [hre]
    | Compile =>
      unfold repl_step
      rw [if_neg hq, if_neg hp]
      simp [hre]
    | Runtime =>
      unfold repl_step
      rw [if_neg hq, if_neg hp]
      simp [hre]

/-- Witness for C9: with an evaluator that reports end-of-input until the
buffer reads `(+ 1 2)` and then prints `3`: submitting `(+ 1` keeps the
buffer, and submitting ` 2)` afterwards prints `3` and clears it. -/
theorem c9_witness :
    repl_step (fun s => if s = "(+ 1 2)" then .ok "3" else .error Error.EoF)
        "" "(+ 1" = .Silent "(+ 1" ∧
    repl_step (fun s => if s = "(+ 1 2)" then .ok "3" else .error Error.EoF)
        "(+ 1" " 2)" = .Printed "3" "" ∧
    repl_step (fun s => if s = "(+ 1 2)" then .ok "3" else .error Error.EoF)
        "" "quit" = .Quit := by
  refine ⟨?_, ?_, ?_⟩
  · exact (((c9_amended_repl_line_handling
      (fun s => if s = "(+ 1 2)" then .ok "3" else .error Error.EoF)
      "" "(+ 1").2.2 (by decide) (by decide)).2.1 rfl).1
  · exact ((((c9_amended_repl_line_handling
      (fun s => if s = "(+ 1 2)" then .ok "3" else .error Error.EoF)
      "(+ 1" " 2)").2.2 (by decide) (by decide)).1 "3") rfl).1
  · exact (c9_amended_repl_line_handling
      (fun s => if s = "(+ 1 2)" then .ok "3" else .error Error.EoF)
      "" "dummy").1

end RustLisp
